import Mathlib

/-!
Shallow embedding of `lib/plugin.js`: the plugin registry, the two
`PluginLoader` implementations (the registry-based one storing
`PluginDefinition`s in a `Map`, and the pluginMap-based one storing plugin
names plus a validator table), and the root-hook aggregation algorithm.

JavaScript values are modelled by the first-order inductive `JSVal`.
A function value `vfunc fid delay ret` carries an identity `fid`, the value
`ret` it resolves to when invoked and awaited, and a `delay` recording how
long its asynchronous resolution takes; the core never inspects `delay`,
which is what the delay-independence theorem makes precise.
Thrown errors are modelled by `Except String`, the `String` being the
error message built in the source.
-/

set_option autoImplicit false

namespace Plugin

/-- A JavaScript value, as far as `lib/plugin.js` can observe it. -/
inductive JSVal where
  | vnull
  | vundefined
  | vbool (b : Bool)
  | vnum (n : Int)
  | vstr (s : String)
  | vfunc (fid : Nat) (delay : Nat) (ret : JSVal)
  | varr (elems : List JSVal)
  | vobj (fields : List (String × JSVal))

namespace JSVal

/-- JavaScript truthiness of a value. -/
def truthy : JSVal → Bool
  | vnull => false
  | vundefined => false
  | vbool b => b
  | vnum n => n != 0
  | vstr s => s != ""
  | vfunc _ _ _ => true
  | varr _ => true
  | vobj _ => true

/-- The JavaScript `typeof` operator (note `typeof null = "object"` and
`typeof [] = "object"`). -/
def typeof : JSVal → String
  | vnull => "object"
  | vundefined => "undefined"
  | vbool _ => "boolean"
  | vnum _ => "number"
  | vstr _ => "string"
  | vfunc _ _ _ => "function"
  | varr _ => "object"
  | vobj _ => "object"

/-- `Array.isArray`. -/
def isArray : JSVal → Bool
  | varr _ => true
  | _ => false

/-- Property access `v[key]`: an own property of a plain object, else
`undefined` (the loader only reads string-named properties, and only after
guarding that the receiver is a non-null object). -/
def getProp (v : JSVal) (key : String) : JSVal :=
  match v with
  | vobj fields =>
    match fields.lookup key with
    | some w => w
    | none => vundefined
  | _ => vundefined

end JSVal

open JSVal

/-- Modelled from the spec: `castArray` from `./utils`, whose source is not
part of this snapshot. Per §4.2 / §9 of the spec it normalizes a value to an
ordered sequence: "a bare function or single object becomes a one-element
sequence; an already-array-like value is used as-is". -/
def castArray : JSVal → List JSVal
  | varr elems => elems
  | v => [v]

/-- Modelled from the spec: `createUnsupportedError` from `./errors` (source
not in this snapshot) wraps a descriptive message into an error surfaced to
the user; we model the error by its message string. -/
def createUnsupportedError (msg : String) : String := msg

/-- `createFunctionArrayValidator` from `lib/plugin.js`: accepts a function,
or an array all of whose items are functions; otherwise throws an
"unsupported" error naming the plugin type. -/
def createFunctionArrayValidator (pluginType : String) (value : JSVal) :
    Except String Unit :=
  let isValid :=
    match value with
    | varr items => !(items.any (fun item => item.typeof != "function"))
    | _ => value.typeof == "function"
  if isValid then Except.ok ()
  else Except.error
    (createUnsupportedError
      (pluginType ++ " must be a function or an array of functions"))

/-- The `validate` member of the built-in `mochaHooks` kind: rejects arrays
and anything that is neither a function nor an object. -/
def validateMochaHooks (value : JSVal) : Except String Unit :=
  if value.isArray || (value.typeof != "function" && value.typeof != "object")
  then Except.error
    (createUnsupportedError
      ("mochaHooks must be an object or a function returning (or fulfilling with) an object"))
  else Except.ok ()

/-- The canonical merged root-hook shape: four ordered sequences of hook
callbacks. -/
structure RootHookSet where
  beforeAll : List JSVal
  beforeEach : List JSVal
  afterAll : List JSVal
  afterEach : List JSVal

/-- The accumulator `{beforeAll: [], beforeEach: [], afterAll: [], afterEach: []}`
that seeds the reduce in the aggregation algorithm. -/
def RootHookSet.empty : RootHookSet := ⟨[], [], [], []⟩

/-- Reading a lifecycle key off a resolved hook contribution after the
defaulting spread `{beforeAll: [], ..., ...hook}`: an own property of a plain
object wins, every missing key (and every non-object contribution) defaults
to the empty array. -/
def hookField (hook : JSVal) (key : String) : JSVal :=
  match hook with
  | vobj fields =>
    match fields.lookup key with
    | some w => w
    | none => varr []
  | _ => varr []

/-- One step of the reduce in the aggregation algorithm: concatenate each
lifecycle key's (cast-to-array) value onto the accumulator. -/
def rootHookStep (acc : RootHookSet) (hook : JSVal) : RootHookSet where
  beforeAll := acc.beforeAll ++ castArray (hookField hook "beforeAll")
  beforeEach := acc.beforeEach ++ castArray (hookField hook "beforeEach")
  afterAll := acc.afterAll ++ castArray (hookField hook "afterAll")
  afterEach := acc.afterEach ++ castArray (hookField hook "afterEach")

/-- The object literal a `RootHookSet` is returned as. -/
def RootHookSet.toObj (s : RootHookSet) : JSVal :=
  vobj
    [("beforeAll", varr s.beforeAll), ("beforeEach", varr s.beforeEach),
     ("afterAll", varr s.afterAll), ("afterEach", varr s.afterEach)]

/-- Resolving one contribution:
`typeof hook === 'function' ? hook() : hook`, awaited. Invoking a function
value yields (after its `delay`) the value it resolves to. -/
def resolveHook : JSVal → JSVal
  | vfunc _ _ ret => ret
  | hook => hook

/-- `aggregateRootHooks` from the pluginMap-based module: resolve every
contribution (all in parallel via `Promise.all`, which keeps input order),
then reduce the resolved objects, in contribution order, into one
`RootHookSet` object. The `console.dir` debug print has no bearing on the
result and is not modelled. -/
def aggregateRootHooks (rootHooks : List JSVal) : JSVal :=
  RootHookSet.toObj ((rootHooks.map resolveHook).foldl rootHookStep RootHookSet.empty)

/-- The `finalize` member of the built-in `mochaHooks` kind in the
registry-based module: same aggregation, but guarded by
`if (rootHooks.length)`, so an empty list falls through to `undefined`. -/
def mochaHooksFinalize (rootHooks : List JSVal) : JSVal :=
  if rootHooks.length != 0 then
    RootHookSet.toObj ((rootHooks.map resolveHook).foldl rootHookStep RootHookSet.empty)
  else vundefined

/-- One entry of the plugin registry (registry-based module): the export
name a user module must use, the option name for the finalized output, and
the optional validator and finalizer. -/
structure PluginDefinition where
  exportName : String
  optionName : Option String := none
  validate : Option (JSVal → Except String Unit) := none
  finalize : Option (List JSVal → JSVal) := none

/-- `plugin.optionName || exportName`: JavaScript `||` falls back on every
falsy value, so a missing option name and the empty string both yield the
export name. -/
def strOr (opt : Option String) (fallback : String) : String :=
  match opt with
  | some s => if s == "" then fallback else s
  | none => fallback

/-- The key under which a kind's finalized value is assigned. -/
def effOptionName (p : PluginDefinition) : String :=
  strOr p.optionName p.exportName

/-- The built-in `mochaHooks` kind. -/
def mochaHooksDef : PluginDefinition where
  exportName := "mochaHooks"
  optionName := some "rootHooks"
  validate := some validateMochaHooks
  finalize := some mochaHooksFinalize

/-- The built-in `mochaGlobalSetup` kind (no finalizer). -/
def mochaGlobalSetupDef : PluginDefinition where
  exportName := "mochaGlobalSetup"
  optionName := some "globalSetup"
  validate := some (createFunctionArrayValidator "mochaGlobalSetup")

/-- The built-in `mochaGlobalTeardown` kind (no finalizer). -/
def mochaGlobalTeardownDef : PluginDefinition where
  exportName := "mochaGlobalTeardown"
  optionName := some "globalTeardown"
  validate := some (createFunctionArrayValidator "mochaGlobalTeardown")

/-- The default registry contents, `MochaPlugins`, in insertion order. -/
def MochaPlugins : List PluginDefinition :=
  [mochaHooksDef, mochaGlobalSetupDef, mochaGlobalTeardownDef]

/-- `Map.prototype.set` (also plain-object assignment): replace the value at
an existing key in place, otherwise append the new entry at the end. Keys of
a JavaScript `Map` (and own property names of an object) are unique, so
replacing the first occurrence is replacing the occurrence. -/
def jsMapSet {α : Type} : List (String × α) → String → α → List (String × α)
  | [], key, v => [(key, v)]
  | kv :: rest, key, v =>
    if kv.1 = key then (key, v) :: rest
    else kv :: jsMapSet rest key v

/-- `Map.prototype.get` for an accumulation-bucket map, defaulting a missing
key to the empty bucket (every bucket is initialized at construction, so the
default is never consulted on a loader built by the constructor). -/
def getBucket (loaded : List (String × List JSVal)) (name : String) :
    List JSVal :=
  (loaded.lookup name).getD []

/-- The registry-based `PluginLoader`: a registry (`exportName` ↦
definition, insertion order preserved) plus one accumulation bucket per
registered kind. -/
structure PluginLoader where
  registered : List (String × PluginDefinition)
  loaded : List (String × List JSVal)

/-- `PluginLoader.prototype.register`: throws a name-conflict error when the
export name is already registered, otherwise inserts the definition. -/
def register (reg : List (String × PluginDefinition)) (p : PluginDefinition) :
    Except String (List (String × PluginDefinition)) :=
  if (reg.lookup p.exportName).isSome then
    Except.error ("plugin name conflict: " ++ p.exportName)
  else Except.ok (jsMapSet reg p.exportName p)

/-- The constructor's `pluginDefinitions.forEach(d => this.register(d))`:
the first conflict aborts construction. -/
def registerAll (reg : List (String × PluginDefinition)) :
    List PluginDefinition → Except String (List (String × PluginDefinition))
  | [] => Except.ok reg
  | p :: ps =>
    match register reg p with
    | Except.ok reg2 => registerAll reg2 ps
    | Except.error e => Except.error e

/-- The `PluginLoader` constructor: register every supplied definition, then
initialize one empty bucket per registered export name. -/
def mkPluginLoader (defs : List PluginDefinition) : Except String PluginLoader :=
  match registerAll [] defs with
  | Except.ok reg => Except.ok ⟨reg, (reg.map Prod.fst).map (fun n => (n, []))⟩
  | Except.error e => Except.error e

/-- The `exportNames` getter: registered keys in insertion order. -/
def PluginLoader.exportNames (L : PluginLoader) : List String :=
  L.registered.map Prod.fst

/-- The body of `load`'s `reduce` over export names. The bucket map is
threaded explicitly because the source mutates `this.loaded` in place: a
validator throwing aborts the loop but keeps the appends already made. -/
def loadLoop (registered : List (String × PluginDefinition)) (m : JSVal) :
    List String → Bool → List (String × List JSVal) →
    Except String Bool × List (String × List JSVal)
  | [], isFound, loaded => (Except.ok isFound, loaded)
  | pluginName :: rest, isFound, loaded =>
    let impl := m.getProp pluginName
    if impl.truthy then
      match registered.lookup pluginName with
      | some plugin =>
        let vres :=
          match plugin.validate with
          | some validator => validator impl
          | none => Except.ok ()
        match vres with
        | Except.ok _ =>
          loadLoop registered m rest true
            (jsMapSet loaded pluginName (getBucket loaded pluginName ++ castArray impl))
        | Except.error e => (Except.error e, loaded)
      | none =>
        (Except.error "TypeError: cannot read property of undefined plugin", loaded)
    else loadLoop registered m rest isFound loaded

/-- `PluginLoader.prototype.load` (registry-based): reject everything that is
not a truthy value of `typeof` object, otherwise fold over the registered
export names. The returned loader is the post-call state. -/
def PluginLoader.load (L : PluginLoader) (m : JSVal) :
    Except String Bool × PluginLoader :=
  if m.truthy && m.typeof == "object" then
    let r := loadLoop L.registered m L.exportNames false L.loaded
    (r.1, ⟨L.registered, r.2⟩)
  else (Except.ok false, L)

/-- One iteration of the registry-based `finalize` loop over
`this.loaded.entries()`: a kind with a non-empty bucket and a
function-valued `finalize` gets its aggregator invoked on the full bucket
and the result assigned under `optionName || exportName`. The first
accumulator component is the `finalizedPlugins` object being built; the
second instruments the loop, recording the export names whose aggregator
was invoked. -/
def finalizeStep (registered : List (String × PluginDefinition))
    (acc : List (String × JSVal) × List String) (entry : String × List JSVal) :
    List (String × JSVal) × List String :=
  if entry.2.length != 0 then
    match registered.lookup entry.1 with
    | some plugin =>
      match plugin.finalize with
      | some fin =>
        (jsMapSet acc.1 (strOr plugin.optionName entry.1) (fin entry.2),
         acc.2 ++ [entry.1])
      | none => acc
    | none => acc
  else acc

/-- `PluginLoader.prototype.finalize` (registry-based), instrumented. -/
def PluginLoader.finalizeAux (L : PluginLoader) :
    List (String × JSVal) × List String :=
  L.loaded.foldl (finalizeStep L.registered) ([], [])

/-- The settings object `finalize` resolves with. -/
def PluginLoader.finalizeResult (L : PluginLoader) : List (String × JSVal) :=
  L.finalizeAux.1

/-- The export names whose aggregator `finalize` invoked. -/
def PluginLoader.finalizeInvoked (L : PluginLoader) : List String :=
  L.finalizeAux.2

/-- `finalize` as a state transformer: the method only reads `this.loaded`
and `this.registered` (no assignment to either occurs in its body), so the
post-call loader is the receiver unchanged. -/
def PluginLoader.finalizeS (L : PluginLoader) :
    List (String × JSVal) × PluginLoader :=
  (L.finalizeResult, L)

/-! ### The pluginMap-based `PluginLoader` (second module) -/

/-- `constants.PLUGIN_ROOT_HOOKS`. -/
def PLUGIN_ROOT_HOOKS : String := "mochaHooks"

/-- `constants.PLUGIN_GLOBAL_SETUP`. -/
def PLUGIN_GLOBAL_SETUP : String := "mochaGlobalSetup"

/-- `constants.PLUGIN_GLOBAL_TEARDOWN`. -/
def PLUGIN_GLOBAL_TEARDOWN : String := "mochaGlobalTeardown"

/-- `PLUGIN_NAMES`, in the order `Object.values(constants)` yields them. -/
def PLUGIN_NAMES : List String :=
  [PLUGIN_ROOT_HOOKS, PLUGIN_GLOBAL_SETUP, PLUGIN_GLOBAL_TEARDOWN]

/-- The `PluginValidators` table of the pluginMap-based module. Its
`mochaHooks` entry and its own copy of `createFunctionArrayValidator` are
textually identical to the registry-based module's, so the same embeddings
are shared. -/
def PluginValidators (pluginName : String) :
    Option (JSVal → Except String Unit) :=
  if pluginName == PLUGIN_ROOT_HOOKS then some validateMochaHooks
  else if pluginName == PLUGIN_GLOBAL_SETUP then
    some (createFunctionArrayValidator PLUGIN_GLOBAL_SETUP)
  else if pluginName == PLUGIN_GLOBAL_TEARDOWN then
    some (createFunctionArrayValidator PLUGIN_GLOBAL_TEARDOWN)
  else none

/-- The pluginMap-based `PluginLoader`: plugin names, one bucket per name,
and a validator table. -/
structure PluginLoader2 where
  pluginNames : List String
  pluginMap : List (String × List JSVal)
  pluginValidators : String → Option (JSVal → Except String Unit)

/-- Its constructor with the default arguments. -/
def mkPluginLoader2 : PluginLoader2 :=
  ⟨PLUGIN_NAMES, PLUGIN_NAMES.map (fun n => (n, [])), PluginValidators⟩

/-- The body of the pluginMap-based `load`'s `reduce`: a validator is looked
up in the table (and only run when present); a plugin found under a
registered name is appended to its bucket. -/
def loadLoop2 (validators : String → Option (JSVal → Except String Unit))
    (m : JSVal) :
    List String → Bool → List (String × List JSVal) →
    Except String Bool × List (String × List JSVal)
  | [], isFound, pluginMap => (Except.ok isFound, pluginMap)
  | pluginName :: rest, isFound, pluginMap =>
    let plugin := m.getProp pluginName
    if plugin.truthy then
      let vres :=
        match validators pluginName with
        | some validator => validator plugin
        | none => Except.ok ()
      match vres with
      | Except.ok _ =>
        loadLoop2 validators m rest true
          (jsMapSet pluginMap pluginName
            (getBucket pluginMap pluginName ++ castArray plugin))
      | Except.error e => (Except.error e, pluginMap)
    else loadLoop2 validators m rest isFound pluginMap

/-- `PluginLoader.prototype.load` (pluginMap-based). -/
def PluginLoader2.load (L : PluginLoader2) (m : JSVal) :
    Except String Bool × PluginLoader2 :=
  if m.truthy && m.typeof == "object" then
    let r := loadLoop2 L.pluginValidators m L.pluginNames false L.pluginMap
    (r.1, ⟨L.pluginNames, r.2, L.pluginValidators⟩)
  else (Except.ok false, L)

/-- `PluginLoader.prototype.finalize` (pluginMap-based): root hooks go
through `aggregateRootHooks`; non-empty global-setup and global-teardown
buckets are surfaced as their raw accumulated arrays. -/
def PluginLoader2.finalizeResult (L : PluginLoader2) : List (String × JSVal) :=
  let mochaHooks := getBucket L.pluginMap PLUGIN_ROOT_HOOKS
  let fp0 : List (String × JSVal) := []
  let fp1 :=
    if mochaHooks.length != 0 then
      jsMapSet fp0 "rootHooks" (aggregateRootHooks mochaHooks)
    else fp0
  let mochaGlobalSetup := getBucket L.pluginMap PLUGIN_GLOBAL_SETUP
  let fp2 :=
    if mochaGlobalSetup.length != 0 then
      jsMapSet fp1 "globalSetup" (varr mochaGlobalSetup)
    else fp1
  let mochaGlobalTeardown := getBucket L.pluginMap PLUGIN_GLOBAL_TEARDOWN
  let fp3 :=
    if mochaGlobalTeardown.length != 0 then
      jsMapSet fp2 "globalTeardown" (varr mochaGlobalTeardown)
    else fp2
  fp3

/-! ### Derived notions used by the specification statements -/

/-- The default registry, keyed in insertion order. -/
def defaultRegistered : List (String × PluginDefinition) :=
  [("mochaHooks", mochaHooksDef), ("mochaGlobalSetup", mochaGlobalSetupDef),
   ("mochaGlobalTeardown", mochaGlobalTeardownDef)]

/-- The export names of the default registry, in registration order. -/
def builtinNames : List String :=
  ["mochaHooks", "mochaGlobalSetup", "mochaGlobalTeardown"]

/-- The freshly constructed default registry-based loader. -/
def defaultLoader : PluginLoader :=
  ⟨defaultRegistered,
   [("mochaHooks", []), ("mochaGlobalSetup", []), ("mochaGlobalTeardown", [])]⟩

/-- A reachable registry-based loader state over the default registry, with
arbitrary bucket contents. -/
def loaderWith (hs ss ts : List JSVal) : PluginLoader :=
  ⟨defaultRegistered,
   [("mochaHooks", hs), ("mochaGlobalSetup", ss), ("mochaGlobalTeardown", ts)]⟩

/-- A reachable pluginMap-based loader state with arbitrary bucket
contents. -/
def loader2With (hs ss ts : List JSVal) : PluginLoader2 :=
  ⟨PLUGIN_NAMES,
   [(PLUGIN_ROOT_HOOKS, hs), (PLUGIN_GLOBAL_SETUP, ss),
    (PLUGIN_GLOBAL_TEARDOWN, ts)],
   PluginValidators⟩

/-- The external driver: `load` once per module, in order, stopping at the
first thrown error. -/
def loadAll (L : PluginLoader) : List JSVal → Except String Unit × PluginLoader
  | [] => (Except.ok (), L)
  | m :: ms =>
    match L.load m with
    | (Except.ok _, L2) => loadAll L2 ms
    | (Except.error e, L2) => (Except.error e, L2)

/-- Two contribution values that differ at most in the resolution delay of a
function contribution: the aggregation's delay-independence is phrased as
invariance under this relation. -/
inductive DelayEquiv : JSVal → JSVal → Prop where
  | refl (v : JSVal) : DelayEquiv v v
  | func (fid d1 d2 : Nat) (ret : JSVal) :
      DelayEquiv (vfunc fid d1 ret) (vfunc fid d2 ret)

/-- The normalized sequence one resolved contribution supplies for one
lifecycle key. -/
def contribKey (key : String) (hook : JSVal) : List JSVal :=
  castArray (hookField (resolveHook hook) key)

/-- What one loaded module contributes to the `mochaHooks` bucket: the
cast-to-array value of its truthy `mochaHooks` export, if any. -/
def moduleHooksContrib (m : JSVal) : List JSVal :=
  if (m.getProp "mochaHooks").truthy then castArray (m.getProp "mochaHooks")
  else []

/-- The guard both `load` implementations share: a truthy value whose
`typeof` is `"object"`. -/
def nonNullObject (m : JSVal) : Bool :=
  m.truthy && m.typeof == "object"

/-- The registered validator for `name` (if any) accepts `impl`. -/
def passesValidation (registered : List (String × PluginDefinition))
    (name : String) (impl : JSVal) : Prop :=
  ∀ p, registered.lookup name = some p →
    ∀ validator, p.validate = some validator →
      validator impl = Except.ok ()

/-- The external driver calling the registry-based `load` once per module,
collecting every call's outcome (a returned boolean or a thrown error). -/
def loadSeq (L : PluginLoader) :
    List JSVal → List (Except String Bool) × PluginLoader
  | [] => ([], L)
  | m :: ms =>
    let r := L.load m
    let rest := loadSeq r.2 ms
    (r.1 :: rest.1, rest.2)

/-- The same driver over the pluginMap-based `load`. -/
def loadSeq2 (L : PluginLoader2) :
    List JSVal → List (Except String Bool) × PluginLoader2
  | [] => ([], L)
  | m :: ms =>
    let r := L.load m
    let rest := loadSeq2 r.2 ms
    (r.1 :: rest.1, rest.2)

/-! ### Library lemmas about the map and bucket primitives -/

theorem lookup_jsMapSet_self {α : Type} (m : List (String × α)) (k : String)
    (v : α) : (jsMapSet m k v).lookup k = some v := by
  induction m with
  | nil => simp [jsMapSet, List.lookup]
  | cons kv rest ih =>
    by_cases h : kv.1 = k
    · simp [jsMapSet, h, List.lookup]
    · simp only [jsMapSet, if_neg h, List.lookup]
      rw [show (k == kv.1) = false by simp [Ne.symm h]]
      exact ih

theorem lookup_jsMapSet_ne {α : Type} (m : List (String × α)) (k : String)
    (v : α) (k' : String) (h : k' ≠ k) :
    (jsMapSet m k v).lookup k' = m.lookup k' := by
  induction m with
  | nil =>
    simp only [jsMapSet, List.lookup]
    rw [show (k' == k) = false by simp [h]]
  | cons kv rest ih =>
    by_cases hk : kv.1 = k
    · subst hk
      simp only [jsMapSet, if_pos rfl, List.lookup]
      rw [show (k' == kv.1) = false by simp [h]]
    · simp only [jsMapSet, if_neg hk, List.lookup]
      by_cases hk' : k' = kv.1
      · rw [show (k' == kv.1) = true by simp [hk']]
      · rw [show (k' == kv.1) = false by simp [hk']]
        exact ih

theorem keys_jsMapSet_of_mem {α : Type} (m : List (String × α)) (k : String)
    (v : α) (h : (m.lookup k).isSome = true) :
    (jsMapSet m k v).map Prod.fst = m.map Prod.fst := by
  induction m with
  | nil => simp [List.lookup] at h
  | cons kv rest ih =>
    by_cases hk : kv.1 = k
    · simp [jsMapSet, hk]
    · simp only [List.lookup, List.map_cons] at h ⊢
      rw [show (k == kv.1) = false by simp [Ne.symm hk]] at h
      simp [jsMapSet, if_neg hk, ih h]

theorem mem_keys_jsMapSet {α : Type} {m : List (String × α)} {k : String}
    {v : α} {k' : String} (h : k' ∈ (jsMapSet m k v).map Prod.fst) :
    k' ∈ m.map Prod.fst ∨ k' = k := by
  induction m with
  | nil => simp [jsMapSet] at h; simp [h]
  | cons kv rest ih =>
    by_cases hk : kv.1 = k
    · simp [jsMapSet, hk] at h
      rcases h with h | h
      · simp [h]
      · exact Or.inl (by simp [h])
    · simp only [jsMapSet, if_neg hk, List.map_cons, List.mem_cons] at h
      rcases h with h | h
      · exact Or.inl (by simp [h])
      · rcases ih h with h2 | h2
        · exact Or.inl (by simp [h2])
        · exact Or.inr h2

theorem lookup_isSome_iff {α : Type} (m : List (String × α)) (k : String) :
    (m.lookup k).isSome = true ↔ k ∈ m.map Prod.fst := by
  induction m with
  | nil => simp [List.lookup]
  | cons kv rest ih =>
    simp only [List.map_cons, List.mem_cons, List.lookup]
    by_cases hk : kv.1 = k
    · subst hk
      simp
    · rw [show (k == kv.1) = false by simp [Ne.symm hk]]
      simp [ih, Ne.symm hk]

theorem getBucket_jsMapSet_self (m : List (String × List JSVal)) (k : String)
    (v : List JSVal) : getBucket (jsMapSet m k v) k = v := by
  simp [getBucket, lookup_jsMapSet_self]

theorem getBucket_jsMapSet_ne (m : List (String × List JSVal)) (k : String)
    (v : List JSVal) (k' : String) (h : k' ≠ k) :
    getBucket (jsMapSet m k v) k' = getBucket m k' := by
  simp [getBucket, lookup_jsMapSet_ne _ _ _ _ h]

/-! ### The aggregation reduce computes per-key concatenation -/

theorem foldl_rootHookStep (hooks : List JSVal) (acc : RootHookSet) :
    hooks.foldl rootHookStep acc =
      ⟨acc.beforeAll ++ (hooks.map (fun h => castArray (hookField h "beforeAll"))).flatten,
       acc.beforeEach ++ (hooks.map (fun h => castArray (hookField h "beforeEach"))).flatten,
       acc.afterAll ++ (hooks.map (fun h => castArray (hookField h "afterAll"))).flatten,
       acc.afterEach ++ (hooks.map (fun h => castArray (hookField h "afterEach"))).flatten⟩ := by
  induction hooks generalizing acc with
  | nil => simp
  | cons h t ih => simp [rootHookStep, ih]

theorem aggregateRootHooks_eq_concat (hooks : List JSVal) :
    aggregateRootHooks hooks =
      vobj
        [("beforeAll", varr ((hooks.map (contribKey "beforeAll")).flatten)),
         ("beforeEach", varr ((hooks.map (contribKey "beforeEach")).flatten)),
         ("afterAll", varr ((hooks.map (contribKey "afterAll")).flatten)),
         ("afterEach", varr ((hooks.map (contribKey "afterEach")).flatten))] := by
  unfold aggregateRootHooks
  rw [foldl_rootHookStep]
  simp [RootHookSet.toObj, RootHookSet.empty, List.map_map]
  exact ⟨rfl, rfl, rfl, rfl⟩

theorem mochaHooksFinalize_pos (hooks : List JSVal) (h : hooks.length ≠ 0) :
    mochaHooksFinalize hooks = aggregateRootHooks hooks := by
  unfold mochaHooksFinalize aggregateRootHooks
  simp [h]

theorem resolveHook_delayEquiv {a b : JSVal} (h : DelayEquiv a b) :
    resolveHook a = resolveHook b := by
  cases h <;> rfl

theorem map_resolveHook_delayEquiv {l1 l2 : List JSVal}
    (h : List.Forall₂ DelayEquiv l1 l2) :
    l1.map resolveHook = l2.map resolveHook := by
  induction h with
  | nil => rfl
  | cons hd _ ih => simp [List.map_cons, resolveHook_delayEquiv hd, ih]

/-! ### Behavior of the `load` reduce -/

theorem loadLoop_ok_found (registered : List (String × PluginDefinition))
    (m : JSVal) :
    ∀ (names : List String) (isFound : Bool)
      (loaded : List (String × List JSVal)) (b : Bool)
      (loaded2 : List (String × List JSVal)),
      loadLoop registered m names isFound loaded = (Except.ok b, loaded2) →
      b = (isFound || names.any (fun n => (m.getProp n).truthy)) := by
  intro names
  induction names with
  | nil =>
    intro isFound loaded b loaded2 h
    simp [loadLoop] at h
    simp [h.1.symm]
  | cons n rest ih =>
    intro isFound loaded b loaded2 h
    simp only [loadLoop] at h
    by_cases ht : (m.getProp n).truthy
    · rw [if_pos ht] at h
      split at h
      · split at h
        · have := ih true _ _ _ h
          simp [this, ht]
        · simp at h
      · simp at h
    · rw [if_neg ht] at h
      have := ih isFound _ _ _ h
      simp [this, Bool.of_not_eq_true ht, Bool.or_assoc]

theorem loadLoop_ok_valid (registered : List (String × PluginDefinition))
    (m : JSVal) :
    ∀ (names : List String) (isFound : Bool)
      (loaded : List (String × List JSVal)) (b : Bool)
      (loaded2 : List (String × List JSVal)),
      loadLoop registered m names isFound loaded = (Except.ok b, loaded2) →
      ∀ n ∈ names, (m.getProp n).truthy →
        passesValidation registered n (m.getProp n) := by
  intro names
  induction names with
  | nil =>
    intro isFound loaded b loaded2 _ n hn
    simp at hn
  | cons n0 rest ih =>
    intro isFound loaded b loaded2 h n hn htr
    simp only [loadLoop] at h
    rcases List.mem_cons.mp hn with hn0 | hnrest
    · subst hn0
      rw [if_pos htr] at h
      split at h
      · next p hreg =>
        split at h
        · next u hvres =>
          intro p' hp' validator' hv'
          rw [hreg] at hp'
          cases hp'
          rw [hv'] at hvres
          simp at hvres
          cases u
          exact hvres
        · simp at h
      · simp at h
    · by_cases ht0 : (m.getProp n0).truthy
      · rw [if_pos ht0] at h
        split at h
        · split at h
          · exact ih _ _ _ _ h n hnrest htr
          · simp at h
        · simp at h
      · rw [if_neg ht0] at h
        exact ih _ _ _ _ h n hnrest htr

theorem loadLoop_no_truthy (registered : List (String × PluginDefinition))
    (m : JSVal) :
    ∀ (names : List String) (isFound : Bool)
      (loaded : List (String × List JSVal)),
      (∀ n ∈ names, ¬(m.getProp n).truthy) →
      loadLoop registered m names isFound loaded = (Except.ok isFound, loaded) := by
  intro names
  induction names with
  | nil => intro isFound loaded _; simp [loadLoop]
  | cons n0 rest ih =>
    intro isFound loaded h
    simp only [loadLoop]
    rw [if_neg (h n0 (by simp))]
    exact ih _ _ (fun n hn => h n (by simp [hn]))

theorem loadLoop_bucket_grows (registered : List (String × PluginDefinition))
    (m : JSVal) :
    ∀ (names : List String) (isFound : Bool)
      (loaded : List (String × List JSVal)) (name : String) (xs : List JSVal),
      loaded.lookup name = some xs →
      ∃ t, ((loadLoop registered m names isFound loaded).2).lookup name =
        some (xs ++ t) := by
  intro names
  induction names with
  | nil =>
    intro isFound loaded name xs h
    exact ⟨[], by simp [loadLoop, h]⟩
  | cons n0 rest ih =>
    intro isFound loaded name xs h
    simp only [loadLoop]
    by_cases ht : (m.getProp n0).truthy
    · rw [if_pos ht]
      split

      · split
        · by_cases hname : name = n0
          · subst hname
            have hx : getBucket loaded name = xs := by simp [getBucket, h]
            have hl : (jsMapSet loaded name
                (getBucket loaded name ++ castArray (m.getProp name))).lookup name =
                some (xs ++ castArray (m.getProp name)) := by
              rw [lookup_jsMapSet_self, hx]
            rcases ih true _ name _ hl with ⟨t, htl⟩
            exact ⟨castArray (m.getProp name) ++ t, by rw [htl, List.append_assoc]⟩
          · have hl : (jsMapSet loaded n0
                (getBucket loaded n0 ++ castArray (m.getProp n0))).lookup name =
                some xs := by
              rw [lookup_jsMapSet_ne _ _ _ _ hname, h]
            exact ih true _ name _ hl
        · exact ⟨[], by simp [h]⟩
      · exact ⟨[], by simp [h]⟩
    · rw [if_neg ht]
      exact ih isFound _ name _ h

theorem loadLoop_bucket_untouched (registered : List (String × PluginDefinition))
    (m : JSVal) :
    ∀ (names : List String) (isFound : Bool)
      (loaded : List (String × List JSVal)) (name : String),
      name ∉ names →
      getBucket ((loadLoop registered m names isFound loaded).2) name =
        getBucket loaded name := by
  intro names
  induction names with
  | nil => intro isFound loaded name _; simp [loadLoop]
  | cons n0 rest ih =>
    intro isFound loaded name hn
    have hne : name ≠ n0 := fun e => hn (by simp [e])
    have hrest : name ∉ rest := fun e => hn (by simp [e])
    simp only [loadLoop]
    by_cases ht : (m.getProp n0).truthy
    · rw [if_pos ht]
      split
      · split
        · rw [ih true _ name hrest]
          exact getBucket_jsMapSet_ne _ _ _ _ hne
        · rfl
      · rfl
    · rw [if_neg ht]
      exact ih isFound _ name hrest

theorem loadLoop_bucket_ok (registered : List (String × PluginDefinition))
    (m : JSVal) :
    ∀ (names : List String) (isFound : Bool)
      (loaded : List (String × List JSVal)) (b : Bool)
      (loaded2 : List (String × List JSVal)),
      names.Nodup →
      loadLoop registered m names isFound loaded = (Except.ok b, loaded2) →
      ∀ n ∈ names, getBucket loaded2 n =
        getBucket loaded n ++
          (if (m.getProp n).truthy then castArray (m.getProp n) else []) := by
  intro names
  induction names with
  | nil => intro isFound loaded b loaded2 _ _ n hn; simp at hn
  | cons n0 rest ih =>
    intro isFound loaded b loaded2 hnd h n hn
    have hn0rest : n0 ∉ rest := (List.nodup_cons.mp hnd).1
    have hndrest : rest.Nodup := (List.nodup_cons.mp hnd).2
    simp only [loadLoop] at h
    rcases List.mem_cons.mp hn with hn0 | hnrest
    · subst hn0
      by_cases ht : (m.getProp n).truthy
      · rw [if_pos ht] at h
        split at h
        · split at h
          · have hu := loadLoop_bucket_untouched registered m rest true
              (jsMapSet loaded n (getBucket loaded n ++ castArray (m.getProp n)))
              n hn0rest
            rw [h] at hu
            rw [hu, getBucket_jsMapSet_self, if_pos ht]
          · simp at h
        · simp at h
      · rw [if_neg ht] at h
        have hu := loadLoop_bucket_untouched registered m rest isFound loaded n hn0rest
        rw [h] at hu
        rw [hu, if_neg ht, List.append_nil]
    · have hne : n ≠ n0 := fun e => hn0rest (e ▸ hnrest)
      by_cases ht : (m.getProp n0).truthy
      · rw [if_pos ht] at h
        split at h
        · split at h
          · rw [ih _ _ _ _ hndrest h n hnrest,
              getBucket_jsMapSet_ne _ _ _ _ hne]
          · simp at h
        · simp at h
      · rw [if_neg ht] at h
        exact ih _ _ _ _ hndrest h n hnrest

theorem loadLoop_keys (registered : List (String × PluginDefinition))
    (m : JSVal) :
    ∀ (names : List String) (isFound : Bool)
      (loaded : List (String × List JSVal)),
      (∀ n ∈ names, (loaded.lookup n).isSome = true) →
      ((loadLoop registered m names isFound loaded).2).map Prod.fst =
        loaded.map Prod.fst := by
  intro names
  induction names with
  | nil => intro isFound loaded _; simp [loadLoop]
  | cons n0 rest ih =>
    intro isFound loaded hsome
    simp only [loadLoop]
    by_cases ht : (m.getProp n0).truthy
    · rw [if_pos ht]
      split
      · split
        · rw [ih true _ ?_]
          · exact keys_jsMapSet_of_mem _ _ _ (hsome n0 (by simp))
          · intro n hn
            by_cases hne : n = n0
            · subst hne
              rw [lookup_jsMapSet_self]
              rfl
            · rw [lookup_jsMapSet_ne _ _ _ _ hne]
              exact hsome n (by simp [hn])
        · rfl
      · rfl
    · rw [if_neg ht]
      exact ih isFound _ (fun n hn => hsome n (by simp [hn]))

/-! ### `load` on reachable default-registry loader states -/

theorem getProp_of_not_object (m : JSVal) (h : nonNullObject m = false)
    (key : String) : m.getProp key = vundefined := by
  cases m <;>
    first
      | rfl
      | simp [nonNullObject, JSVal.truthy, JSVal.typeof] at h

theorem keys_eq_three {l : List (String × List JSVal)} {a b c : String}
    (h : l.map Prod.fst = [a, b, c]) :
    ∃ x y z, l = [(a, x), (b, y), (c, z)] := by
  rcases l with _ | ⟨⟨a1, x⟩, _ | ⟨⟨b1, y⟩, _ | ⟨⟨c1, z⟩, _ | ⟨w, tl⟩⟩⟩⟩ <;>
    simp at h
  obtain ⟨ha, hb, hc⟩ := h
  subst ha; subst hb; subst hc
  exact ⟨x, y, z, rfl⟩

theorem exportNames_loaderWith (hs ss ts : List JSVal) :
    (loaderWith hs ss ts).exportNames = builtinNames := rfl

theorem builtinNames_nodup : builtinNames.Nodup := by decide

theorem lookup_loaderWith_hooks (hs ss ts : List JSVal) :
    ((loaderWith hs ss ts).loaded).lookup "mochaHooks" = some hs := rfl

theorem load_loaderWith_ok (hs ss ts : List JSVal) (m : JSVal) (b : Bool)
    (L2 : PluginLoader) (h : (loaderWith hs ss ts).load m = (Except.ok b, L2)) :
    ∃ ss2 ts2, L2 = loaderWith (hs ++ moduleHooksContrib m) ss2 ts2 := by
  by_cases hg : (m.truthy && m.typeof == "object") = true
  · simp only [PluginLoader.load, if_pos hg] at h
    have h1 := congrArg Prod.fst h
    have h2 := congrArg Prod.snd h
    simp only at h1 h2
    rcases hll : loadLoop (loaderWith hs ss ts).registered m
        (loaderWith hs ss ts).exportNames false (loaderWith hs ss ts).loaded
      with ⟨r, loaded2⟩
    rw [hll] at h1 h2
    simp only at h1 h2
    have hsome : ∀ n ∈ (loaderWith hs ss ts).exportNames,
        (((loaderWith hs ss ts).loaded).lookup n).isSome = true := by
      intro n hn
      rw [exportNames_loaderWith] at hn
      simp [builtinNames] at hn
      rcases hn with hn | hn | hn <;>
        (subst hn; simp [loaderWith, List.lookup])
    have hkeys := loadLoop_keys (loaderWith hs ss ts).registered m
      (loaderWith hs ss ts).exportNames false (loaderWith hs ss ts).loaded hsome
    rw [hll] at hkeys
    simp only at hkeys
    have hkeys3 : loaded2.map Prod.fst =
        ["mochaHooks", "mochaGlobalSetup", "mochaGlobalTeardown"] := by
      rw [hkeys]; rfl
    obtain ⟨x, y, z, hxyz⟩ := keys_eq_three hkeys3
    have hbucket := loadLoop_bucket_ok (loaderWith hs ss ts).registered m
      (loaderWith hs ss ts).exportNames false (loaderWith hs ss ts).loaded b loaded2
      (by rw [exportNames_loaderWith]; exact builtinNames_nodup)
      (by rw [hll, ← h1])
      "mochaHooks" (by rw [exportNames_loaderWith]; simp [builtinNames])
    have hx : x = hs ++ moduleHooksContrib m := by
      have hgb : getBucket loaded2 "mochaHooks" = x := by
        rw [hxyz]; rfl
      rw [hgb] at hbucket
      rw [hbucket, moduleHooksContrib]
      rfl
    refine ⟨y, z, ?_⟩
    rw [← h2, hxyz, hx]
    rfl
  · simp only [PluginLoader.load, if_neg hg] at h
    have h2 := congrArg Prod.snd h
    simp only at h2
    have hmc : moduleHooksContrib m = [] := by
      rw [moduleHooksContrib, getProp_of_not_object m (by exact Bool.of_not_eq_true hg)]
      rfl
    exact ⟨ss, ts, by rw [← h2, hmc, List.append_nil]⟩

theorem loadAll_hooks (ms : List JSVal) :
    ∀ (hs ss ts : List JSVal) (L2 : PluginLoader),
      loadAll (loaderWith hs ss ts) ms = (Except.ok (), L2) →
      ∃ ss2 ts2,
        L2 = loaderWith (hs ++ (ms.map moduleHooksContrib).flatten) ss2 ts2 := by
  induction ms with
  | nil =>
    intro hs ss ts L2 h
    simp only [loadAll] at h
    have h2 := congrArg Prod.snd h
    simp only at h2
    exact ⟨ss, ts, by rw [← h2]; simp⟩
  | cons m rest ih =>
    intro hs ss ts L2 h
    simp only [loadAll] at h
    rcases hld : (loaderWith hs ss ts).load m with ⟨r, L1⟩
    rw [hld] at h
    rcases r with e | b
    · simp at h
    · simp only at h
      obtain ⟨ss1, ts1, hL1⟩ := load_loaderWith_ok hs ss ts m b L1 hld
      subst hL1
      obtain ⟨ss2, ts2, hL2⟩ := ih _ _ _ _ h
      exact ⟨ss2, ts2, by rw [hL2, List.map_cons, List.flatten_cons,
        List.append_assoc]⟩

/-! ### `finalize` on reachable loader states -/

theorem finalizeAux_loaderWith (hs ss ts : List JSVal) :
    (loaderWith hs ss ts).finalizeAux =
      if hs.length != 0 then
        ([("rootHooks", mochaHooksFinalize hs)], ["mochaHooks"])
      else ([], []) := by
  cases hs <;>
    simp [PluginLoader.finalizeAux, loaderWith, finalizeStep, defaultRegistered,
      List.lookup, mochaHooksDef, mochaGlobalSetupDef, mochaGlobalTeardownDef,
      jsMapSet, strOr]

theorem finalizeResult_loader2With (hs ss ts : List JSVal) :
    (loader2With hs ss ts).finalizeResult =
      (if hs.length != 0 then [("rootHooks", aggregateRootHooks hs)] else []) ++
        ((if ss.length != 0 then [("globalSetup", varr ss)] else []) ++
          (if ts.length != 0 then [("globalTeardown", varr ts)] else [])) := by
  cases hs <;> cases ss <;> cases ts <;>
    simp [PluginLoader2.finalizeResult, loader2With, getBucket, List.lookup,
      jsMapSet, PLUGIN_ROOT_HOOKS, PLUGIN_GLOBAL_SETUP, PLUGIN_GLOBAL_TEARDOWN]

theorem foldl_finalizeStep_keys (registered : List (String × PluginDefinition))
    (k : String) :
    ∀ (entries : List (String × List JSVal))
      (acc : List (String × JSVal) × List String),
      k ∈ ((entries.foldl (finalizeStep registered) acc).1).map Prod.fst →
      k ∈ acc.1.map Prod.fst ∨
        ∃ n p, registered.lookup n = some p ∧ p.finalize.isSome = true ∧
          k = strOr p.optionName n := by
  intro entries
  induction entries with
  | nil => intro acc h; exact Or.inl h
  | cons e rest ih =>
    intro acc h
    rw [List.foldl_cons] at h
    rcases ih _ h with hacc | hex
    · rw [finalizeStep] at hacc
      split at hacc
      · split at hacc
        · next p hreg =>
          split at hacc
          · next fin hfin =>
            rcases mem_keys_jsMapSet hacc with hk | hk
            · exact Or.inl hk
            · exact Or.inr ⟨e.1, p, hreg, by simp [hfin], hk⟩
          · exact Or.inl hacc
        · exact Or.inl hacc
      · exact Or.inl hacc
    · exact Or.inr hex

theorem finalizeResult_key_origin (L : PluginLoader) (k : String)
    (h : k ∈ (L.finalizeResult).map Prod.fst) :
    ∃ n p, L.registered.lookup n = some p ∧ p.finalize.isSome = true ∧
      k = strOr p.optionName n := by
  rcases foldl_finalizeStep_keys L.registered k L.loaded ([], []) h with hk | hk
  · simp at hk
  · exact hk

/-! ### The two `load` implementations run in lockstep -/

theorem loadLoop_eq_loadLoop2 (registered : List (String × PluginDefinition))
    (validators : String → Option (JSVal → Except String Unit)) (m : JSVal) :
    ∀ (names : List String),
      (∀ n ∈ names, ∃ p, registered.lookup n = some p ∧
        p.validate = validators n) →
      ∀ (isFound : Bool) (loaded : List (String × List JSVal)),
        loadLoop registered m names isFound loaded =
          loadLoop2 validators m names isFound loaded := by
  intro names
  induction names with
  | nil => intro _ isFound loaded; rfl
  | cons n0 rest ih =>
    intro hv isFound loaded
    obtain ⟨p, hreg, hval⟩ := hv n0 (by simp)
    simp only [loadLoop, loadLoop2]
    by_cases ht : (m.getProp n0).truthy = true
    · rw [if_pos ht, if_pos ht, ← hval]
      split
      · next plugin hplug =>
        rw [hreg] at hplug
        injection hplug with hp
        subst hp
        split
        · next u hres =>
          rw [hres]
          exact ih (fun n hn => hv n (by simp [hn])) true _
        · next e hres =>
          rw [hres]
      · next hplug =>
        rw [hreg] at hplug
        exact Option.noConfusion hplug
    · rw [if_neg ht, if_neg ht]
      exact ih (fun n hn => hv n (by simp [hn])) isFound loaded

/-- The default-registry validator table agrees with `PluginValidators`. -/
theorem defaultRegistered_validators :
    ∀ n ∈ builtinNames, ∃ p, defaultRegistered.lookup n = some p ∧
      p.validate = PluginValidators n := by
  intro n hn
  simp [builtinNames] at hn
  rcases hn with hn | hn | hn <;> subst hn <;>
    exact ⟨_, rfl, rfl⟩

theorem load_eq_load2 (pm : List (String × List JSVal)) (m : JSVal) :
    (PluginLoader.load ⟨defaultRegistered, pm⟩ m).1 =
        (PluginLoader2.load ⟨PLUGIN_NAMES, pm, PluginValidators⟩ m).1 ∧
      ((PluginLoader.load ⟨defaultRegistered, pm⟩ m).2).loaded =
        ((PluginLoader2.load ⟨PLUGIN_NAMES, pm, PluginValidators⟩ m).2).pluginMap := by
  simp only [PluginLoader.load, PluginLoader2.load]
  by_cases hg : (m.truthy && m.typeof == "object") = true
  · rw [if_pos hg, if_pos hg]
    have heq : loadLoop (PluginLoader.mk defaultRegistered pm).registered m
        (PluginLoader.mk defaultRegistered pm).exportNames false pm =
        loadLoop2 PluginValidators m PLUGIN_NAMES false pm := by
      have h1 : (PluginLoader.mk defaultRegistered pm).exportNames = builtinNames := rfl
      have h2 : PLUGIN_NAMES = builtinNames := rfl
      rw [h1, h2]
      exact loadLoop_eq_loadLoop2 defaultRegistered PluginValidators m
        builtinNames defaultRegistered_validators false pm
    rw [heq]
    exact ⟨rfl, rfl⟩
  · rw [if_neg hg, if_neg hg]
    exact ⟨rfl, rfl⟩

theorem loadSeq_eq_loadSeq2 (ms : List JSVal) :
    ∀ (pm : List (String × List JSVal)),
      (loadSeq ⟨defaultRegistered, pm⟩ ms).1 =
          (loadSeq2 ⟨PLUGIN_NAMES, pm, PluginValidators⟩ ms).1 ∧
        ((loadSeq ⟨defaultRegistered, pm⟩ ms).2).loaded =
          ((loadSeq2 ⟨PLUGIN_NAMES, pm, PluginValidators⟩ ms).2).pluginMap := by
  induction ms with
  | nil => intro pm; exact ⟨rfl, rfl⟩
  | cons m rest ih =>
    intro pm
    obtain ⟨hr, hpm⟩ := load_eq_load2 pm m
    simp only [loadSeq, loadSeq2]
    rcases h1 : PluginLoader.load ⟨defaultRegistered, pm⟩ m with ⟨r1, L1⟩
    rcases h2 : PluginLoader2.load ⟨PLUGIN_NAMES, pm, PluginValidators⟩ m with ⟨r2, L2⟩
    rw [h1, h2] at hr hpm
    simp only at hr hpm
    have hL1 : L1 = ⟨defaultRegistered, L1.loaded⟩ := by
      have : L1.registered = defaultRegistered := by
        have := congrArg (fun x => (x.2).registered) h1
        simp only at this
        rw [← this]
        by_cases hg : (m.truthy && m.typeof == "object") = true <;>
          simp [PluginLoader.load, hg]
      rw [← this]
    have hL2 : L2 = ⟨PLUGIN_NAMES, L2.pluginMap, PluginValidators⟩ := by
      have hn : L2.pluginNames = PLUGIN_NAMES := by
        have := congrArg (fun x => (x.2).pluginNames) h2
        simp only at this
        rw [← this]
        by_cases hg : (m.truthy && m.typeof == "object") = true <;>
          simp [PluginLoader2.load, hg]
      have hv : L2.pluginValidators = PluginValidators := by
        have := congrArg (fun x => (x.2).pluginValidators) h2
        simp only at this
        rw [← this]
        by_cases hg : (m.truthy && m.typeof == "object") = true <;>
          simp [PluginLoader2.load, hg]
      rw [← hn, ← hv]
    obtain ⟨ih1, ih2⟩ := ih L1.loaded
    rw [hL1, hL2, ← hpm]
    constructor
    · simp only [List.cons.injEq]
      exact ⟨hr, ih1⟩
    · exact ih2

/-! ### Registration -/

theorem register_ok_cond {reg : List (String × PluginDefinition)}
    {p : PluginDefinition} {reg2 : List (String × PluginDefinition)}
    (h : register reg p = Except.ok reg2) :
    (reg.lookup p.exportName).isSome = false ∧ reg2 = jsMapSet reg p.exportName p := by
  by_cases hc : (reg.lookup p.exportName).isSome = true
  · simp [register, hc] at h
  · simp only [register, if_neg hc] at h
    injection h with h
    exact ⟨Bool.of_not_eq_true hc, h.symm⟩

theorem register_error_of_mem {reg : List (String × PluginDefinition)}
    {p : PluginDefinition} (h : (reg.lookup p.exportName).isSome = true) :
    register reg p = Except.error ("plugin name conflict: " ++ p.exportName) := by
  simp [register, h]

theorem register_ok_sets {reg : List (String × PluginDefinition)}
    {p : PluginDefinition} {reg2 : List (String × PluginDefinition)}
    (h : register reg p = Except.ok reg2) :
    reg2.lookup p.exportName = some p := by
  rw [(register_ok_cond h).2]
  exact lookup_jsMapSet_self _ _ _

theorem register_ok_preserves {reg : List (String × PluginDefinition)}
    {p : PluginDefinition} {reg2 : List (String × PluginDefinition)}
    (h : register reg p = Except.ok reg2) :
    ∀ k, k ∈ reg.map Prod.fst → reg2.lookup k = reg.lookup k := by
  intro k hk
  obtain ⟨hnone, hset⟩ := register_ok_cond h
  have hne : k ≠ p.exportName := by
    intro e
    rw [← e] at hnone
    rw [(lookup_isSome_iff reg k).mpr hk] at hnone
    cases hnone
  rw [hset]
  exact lookup_jsMapSet_ne _ _ _ _ hne

theorem registerAll_append (xs ys : List PluginDefinition) :
    ∀ reg, registerAll reg (xs ++ ys) =
      match registerAll reg xs with
      | Except.ok r => registerAll r ys
      | Except.error e => Except.error e := by
  induction xs with
  | nil => intro reg; rfl
  | cons p ps ih =>
    intro reg
    simp only [List.cons_append, registerAll]
    rcases register reg p with e | reg2
    · rfl
    · exact ih reg2

theorem registerAll_keeps_isSome {defs : List PluginDefinition} :
    ∀ {reg reg2 : List (String × PluginDefinition)},
      registerAll reg defs = Except.ok reg2 →
      ∀ k, (reg.lookup k).isSome = true → (reg2.lookup k).isSome = true := by
  induction defs with
  | nil =>
    intro reg reg2 h k hk
    simp only [registerAll] at h
    injection h with h
    rw [← h]
    exact hk
  | cons p ps ih =>
    intro reg reg2 h k hk
    simp only [registerAll] at h
    rcases hr : register reg p with e | reg1
    · rw [hr] at h; exact Except.noConfusion h
    · rw [hr] at h
      obtain ⟨_, hset⟩ := register_ok_cond hr
      refine ih h k ?_
      rw [hset]
      by_cases hke : k = p.exportName
      · subst hke
        rw [lookup_jsMapSet_self]
        rfl
      · rw [lookup_jsMapSet_ne _ _ _ _ hke]
        exact hk

theorem registerAll_cons_error {reg : List (String × PluginDefinition)}
    {p : PluginDefinition} {e : String} (h : register reg p = Except.error e)
    (ps : List PluginDefinition) :
    registerAll reg (p :: ps) = Except.error e := by
  simp only [registerAll]
  rw [h]

theorem mkPluginLoader_conflict (pre mid post : List PluginDefinition)
    (d1 d2 : PluginDefinition) (hname : d1.exportName = d2.exportName) :
    ∃ e, mkPluginLoader (pre ++ d1 :: (mid ++ d2 :: post)) = Except.error e := by
  suffices h : ∃ e, registerAll [] (pre ++ d1 :: (mid ++ d2 :: post)) = Except.error e by
    obtain ⟨e, he⟩ := h
    exact ⟨e, by simp only [mkPluginLoader]; rw [he]⟩
  rw [registerAll_append]
  rcases hpre : registerAll [] pre with e | reg0
  · exact ⟨e, rfl⟩
  · show ∃ e, registerAll reg0 (d1 :: (mid ++ d2 :: post)) = Except.error e
    simp only [registerAll]
    rcases hr1 : register reg0 d1 with e | reg1
    · exact ⟨e, rfl⟩
    · show ∃ e, registerAll reg1 (mid ++ d2 :: post) = Except.error e
      have hd1 : (reg1.lookup d1.exportName).isSome = true := by
        rw [register_ok_sets hr1]
        rfl
      rw [registerAll_append]
      rcases hmid : registerAll reg1 mid with e | reg2
      · exact ⟨e, rfl⟩
      · show ∃ e, registerAll reg2 (d2 :: post) = Except.error e
        have hd2 : (reg2.lookup d2.exportName).isSome = true := by
          rw [← hname]
          exact registerAll_keeps_isSome hmid _ hd1
        exact ⟨_, registerAll_cons_error (register_error_of_mem hd2) post⟩

/-! ### `load` characterization at the method level -/

theorem load_bucket_grows (L : PluginLoader) (m : JSVal) (name : String)
    (xs : List JSVal) (h : (L.loaded).lookup name = some xs) :
    ∃ t, (((L.load m).2).loaded).lookup name = some (xs ++ t) := by
  by_cases hg : (m.truthy && m.typeof == "object") = true
  · simp only [PluginLoader.load, if_pos hg]
    exact loadLoop_bucket_grows L.registered m L.exportNames false L.loaded name xs h
  · simp only [PluginLoader.load, if_neg hg]
    exact ⟨[], by simpa using h⟩

theorem load_ok_char (L : PluginLoader) (m : JSVal) (b : Bool)
    (L2 : PluginLoader) (h : L.load m = (Except.ok b, L2)) :
    (b = true ↔ nonNullObject m = true ∧
      ∃ name ∈ L.exportNames, (m.getProp name).truthy = true ∧
        passesValidation L.registered name (m.getProp name)) ∧
    (b = false → L2.loaded = L.loaded) := by
  by_cases hg : (m.truthy && m.typeof == "object") = true
  · simp only [PluginLoader.load, if_pos hg] at h
    have h1 := congrArg Prod.fst h
    have h2 := congrArg Prod.snd h
    simp only at h1 h2
    rcases hll : loadLoop L.registered m L.exportNames false L.loaded
      with ⟨r, loaded2⟩
    rw [hll] at h1 h2
    simp only at h1 h2
    have hok : loadLoop L.registered m L.exportNames false L.loaded =
        (Except.ok b, loaded2) := by rw [hll, ← h1]
    have hb := loadLoop_ok_found L.registered m _ _ _ _ _ hok
    simp only [Bool.false_or] at hb
    constructor
    · constructor
      · intro hbt
        refine ⟨by simpa [nonNullObject] using hg, ?_⟩
        rw [hbt] at hb
        obtain ⟨n, hn, ht⟩ := List.any_eq_true.mp hb.symm
        refine ⟨n, hn, ?_, ?_⟩
        · exact ht
        · exact loadLoop_ok_valid L.registered m _ _ _ _ _ hok n hn ht
      · rintro ⟨-, n, hn, ht, -⟩
        rw [hb]
        refine List.any_eq_true.mpr ⟨n, hn, ?_⟩
        exact ht
    · intro hbf
      rw [hbf] at hb
      have hnone : ∀ n ∈ L.exportNames, ¬(m.getProp n).truthy = true := by
        intro n hn ht
        have hany : L.exportNames.any (fun x => (m.getProp x).truthy) = true := by
          refine List.any_eq_true.mpr ⟨n, hn, ?_⟩
          exact ht
        rw [← hb] at hany
        cases hany
      have := loadLoop_no_truthy L.registered m L.exportNames false L.loaded hnone
      rw [this] at hok
      have := congrArg Prod.snd hok
      simp only at this
      rw [← h2, ← this]
  · simp only [PluginLoader.load, if_neg hg] at h
    have h1 := congrArg Prod.fst h
    have h2 := congrArg Prod.snd h
    simp only at h1 h2
    have hb : b = false := by
      have := h1
      injection this with hb
      exact hb.symm
    constructor
    · rw [hb]
      simp only [Bool.false_eq_true, false_iff]
      rintro ⟨hnn, -⟩
      exact hg (by exact hnn)
    · intro _
      rw [← h2]

/-! ### The claims -/

/-- C5: registering a kind whose `exportName` is already registered throws
the name-conflict error; constructing a `PluginLoader` from a definition
collection containing two definitions with the same `exportName` throws
during construction (the constructor never returns a loader, so no `load`
or `finalize` can be reached); and a successful `register` leaves every
previously registered kind's entry intact. -/
theorem claim5_register_conflict :
    (∀ (reg : List (String × PluginDefinition)) (p : PluginDefinition),
        (reg.lookup p.exportName).isSome = true →
        register reg p =
          Except.error ("plugin name conflict: " ++ p.exportName)) ∧
    (∀ (pre mid post : List PluginDefinition) (d1 d2 : PluginDefinition),
        d1.exportName = d2.exportName →
        ∃ e, mkPluginLoader (pre ++ d1 :: (mid ++ d2 :: post)) =
          Except.error e) ∧
    (∀ (reg reg2 : List (String × PluginDefinition)) (p : PluginDefinition),
        register reg p = Except.ok reg2 →
        ∀ k, k ∈ reg.map Prod.fst → reg2.lookup k = reg.lookup k) :=
  ⟨fun _ _ h => register_error_of_mem h,
   fun pre mid post d1 d2 h => mkPluginLoader_conflict pre mid post d1 d2 h,
   fun _ _ _ h => register_ok_preserves h⟩

/-- Witness for C5 at concrete inputs: a conflicting second registration of
`"a"`, a two-element definition list with a duplicated export name, and a
successful registration of `"b"` next to an existing `"a"`. -/
theorem claim5_register_conflict_witness :
    (register [("a", ⟨"a", none, none, none⟩)] ⟨"a", none, none, none⟩ =
      Except.error ("plugin name conflict: " ++ "a")) ∧
    (∃ e, mkPluginLoader ([] ++ ⟨"a", none, none, none⟩ ::
      ([] ++ ⟨"a", none, none, none⟩ :: [])) = Except.error e) ∧
    ((jsMapSet [("a", ⟨"a", none, none, none⟩)] "b"
        ⟨"b", none, none, none⟩).lookup "a" =
      [("a", (⟨"a", none, none, none⟩ : PluginDefinition))].lookup "a") :=
  ⟨claim5_register_conflict.1 [("a", ⟨"a", none, none, none⟩)]
      ⟨"a", none, none, none⟩ rfl,
   claim5_register_conflict.2.1 [] [] [] ⟨"a", none, none, none⟩
      ⟨"a", none, none, none⟩ rfl,
   claim5_register_conflict.2.2 [("a", ⟨"a", none, none, none⟩)] _
      ⟨"b", none, none, none⟩ rfl "a" (by simp)⟩

/-- C6: when a `load` call throws a validation error, every bucket still
holds what it held before the call as a prefix — contributions accumulated
by earlier successful `load` calls are retained. -/
theorem claim6_error_retains_prior :
    ∀ (L : PluginLoader) (m : JSVal) (e : String),
      (L.load m).1 = Except.error e →
      ∀ (name : String) (xs : List JSVal),
        (L.loaded).lookup name = some xs →
        ∃ t, (((L.load m).2).loaded).lookup name = some (xs ++ t) :=
  fun L m _ _ name xs h => load_bucket_grows L m name xs h

/-- Witness for C6: a loader holding one prior root-hook contribution is fed
a module whose `mochaHooks` export is an array, which the validator
rejects; the prior contribution is still at the front of its bucket. -/
theorem claim6_error_retains_prior_witness :
    ((loaderWith [vnum 1] [] []).load (vobj [("mochaHooks", varr [])])).1 =
        Except.error
          "mochaHooks must be an object or a function returning (or fulfilling with) an object" ∧
      ∃ t, ((((loaderWith [vnum 1] [] []).load
          (vobj [("mochaHooks", varr [])])).2).loaded).lookup "mochaHooks" =
        some ([vnum 1] ++ t) :=
  ⟨rfl,
   claim6_error_retains_prior (loaderWith [vnum 1] [] [])
     (vobj [("mochaHooks", varr [])]) _ rfl "mochaHooks" [vnum 1] rfl⟩

/-- C7: `finalize` does not write to the loader state, so calling it twice
with no intervening `load` returns the same settings object both times and
leaves the accumulation buckets unchanged. -/
theorem claim7_finalize_idempotent :
    ∀ L : PluginLoader,
      (L.finalizeS).1 = (((L.finalizeS).2).finalizeS).1 ∧
      ((L.finalizeS).2).loaded = L.loaded ∧
      ((((L.finalizeS).2).finalizeS).2).loaded = L.loaded :=
  fun _ => ⟨rfl, rfl, rfl⟩

/-- C8: the `mochaHooks` validator accepts exactly the non-array values of
`typeof` function or object, and the function-array validator accepts
exactly functions and arrays all of whose elements are functions; each
rejection is the descriptive "unsupported" error built in the source. -/
theorem claim8_validator_characterization :
    ∀ (v : JSVal) (pluginType : String),
      (validateMochaHooks v = Except.ok () ↔
        v.isArray = false ∧ (v.typeof = "function" ∨ v.typeof = "object")) ∧
      (validateMochaHooks v = Except.ok () ∨
        validateMochaHooks v = Except.error
          "mochaHooks must be an object or a function returning (or fulfilling with) an object") ∧
      (createFunctionArrayValidator pluginType v = Except.ok () ↔
        (v.typeof = "function" ∨
          ∃ items, v = varr items ∧ ∀ x ∈ items, x.typeof = "function")) ∧
      (createFunctionArrayValidator pluginType v = Except.ok () ∨
        createFunctionArrayValidator pluginType v = Except.error
          (pluginType ++ " must be a function or an array of functions")) := by
  intro v pluginType
  refine ⟨?_, ?_, ?_, ?_⟩
  · cases v <;>
      simp [validateMochaHooks, JSVal.isArray, JSVal.typeof,
        createUnsupportedError]
  · cases v <;>
      simp [validateMochaHooks, JSVal.isArray, JSVal.typeof,
        createUnsupportedError]
  · cases v <;>
      simp [createFunctionArrayValidator, JSVal.typeof, createUnsupportedError,
        List.any_eq_true]
  · cases v <;>
      simp [createFunctionArrayValidator, JSVal.typeof, createUnsupportedError]
    next items =>
      rcases Classical.em (∀ x ∈ items, x.typeof = "function") with hc | hc
      · exact Or.inl hc
      · right
        push_neg at hc
        exact hc

/-- C9: a single `load` is not atomic on validation error. With the default
registry, a module carrying a valid truthy `mochaHooks` export and a truthy
`mochaGlobalSetup` export the function-array validator rejects makes `load`
throw, yet the `mochaHooks` contribution has already been appended to its
bucket and stays there. -/
theorem claim9_load_not_atomic :
    ∀ (hs ss ts : List JSVal) (m hv sv : JSVal) (e : String),
      m.getProp "mochaHooks" = hv → hv.truthy = true →
      validateMochaHooks hv = Except.ok () →
      m.getProp "mochaGlobalSetup" = sv → sv.truthy = true →
      createFunctionArrayValidator "mochaGlobalSetup" sv = Except.error e →
      nonNullObject m = true →
      (loaderWith hs ss ts).load m =
        (Except.error e, loaderWith (hs ++ castArray hv) ss ts) := by
  intro hs ss ts m hv sv e hhv htv hvok hsv hstv hserr hnn
  have hg : (m.truthy && m.typeof == "object") = true := hnn
  simp only [PluginLoader.load, if_pos hg]
  have hnames : (loaderWith hs ss ts).exportNames =
      ["mochaHooks", "mochaGlobalSetup", "mochaGlobalTeardown"] := rfl
  rw [hnames]
  simp only [loadLoop, hhv, htv, if_pos]
  simp [loaderWith, defaultRegistered, List.lookup, mochaHooksDef,
    mochaGlobalSetupDef, hvok, hsv, hstv, hserr, jsMapSet, getBucket, hhv]

/-- Witness for C9: the module exports an empty-object `mochaHooks` and the
number `7` under `mochaGlobalSetup`; `load` throws the function-array error
while the hook object is already in the bucket. -/
theorem claim9_load_not_atomic_witness :
    (loaderWith [] [] []).load
        (vobj [("mochaHooks", vobj []), ("mochaGlobalSetup", vnum 7)]) =
      (Except.error
          ("mochaGlobalSetup" ++ " must be a function or an array of functions"),
        loaderWith ([] ++ castArray (vobj [])) [] []) :=
  claim9_load_not_atomic [] [] []
    (vobj [("mochaHooks", vobj []), ("mochaGlobalSetup", vnum 7)])
    (vobj []) (vnum 7) _ rfl rfl rfl rfl rfl rfl rfl

/-- C1: across a driver run, the `mochaHooks` bucket accumulates each
module's (cast-to-array) contribution in module order; on a non-empty
bucket the aggregation step returns the object with exactly the four
lifecycle keys, each key holding the concatenation, in contribution order,
of that key's normalized value from each resolved contribution; and the
result is invariant under changing the resolution delays of function
contributions, i.e. merge order is contribution order, never completion
order. -/
theorem claim1_rootHook_pipeline :
    (∀ (ms : List JSVal) (L2 : PluginLoader),
        loadAll defaultLoader ms = (Except.ok (), L2) →
        getBucket L2.loaded "mochaHooks" = (ms.map moduleHooksContrib).flatten) ∧
    (∀ hooks : List JSVal, hooks.length ≠ 0 →
        mochaHooksFinalize hooks =
          vobj
            [("beforeAll", varr ((hooks.map (contribKey "beforeAll")).flatten)),
             ("beforeEach", varr ((hooks.map (contribKey "beforeEach")).flatten)),
             ("afterAll", varr ((hooks.map (contribKey "afterAll")).flatten)),
             ("afterEach", varr ((hooks.map (contribKey "afterEach")).flatten))]) ∧
    (∀ hooks1 hooks2 : List JSVal, List.Forall₂ DelayEquiv hooks1 hooks2 →
        mochaHooksFinalize hooks1 = mochaHooksFinalize hooks2) := by
  refine ⟨?_, ?_, ?_⟩
  · intro ms L2 h
    obtain ⟨ss2, ts2, hL⟩ := loadAll_hooks ms [] [] [] L2 (by exact h)
    rw [hL]
    show ([] : List JSVal) ++ (ms.map moduleHooksContrib).flatten = _
    rw [List.nil_append]
  · intro hooks h
    rw [mochaHooksFinalize_pos hooks h, aggregateRootHooks_eq_concat]
  · intro hooks1 hooks2 hfa
    simp only [mochaHooksFinalize]
    rw [map_resolveHook_delayEquiv hfa, List.Forall₂.length_eq hfa]

/-- Witness for C1: one module contributing a hook object, a two-element
contribution list mixing an object and an asynchronous function, and the
same function contribution under two different delays. -/
theorem claim1_rootHook_pipeline_witness :
    getBucket (loaderWith [vobj [("beforeEach", vfunc 1 0 vundefined)]] [] []).loaded
        "mochaHooks" =
      ([vobj [("mochaHooks", vobj [("beforeEach", vfunc 1 0 vundefined)])]].map
        moduleHooksContrib).flatten ∧
    mochaHooksFinalize
        [vobj [("beforeEach", vfunc 1 0 vundefined)],
         vfunc 6 5 (vobj [("afterAll", vfunc 2 0 vundefined)])] =
      vobj
        [("beforeAll", varr (([vobj [("beforeEach", vfunc 1 0 vundefined)],
            vfunc 6 5 (vobj [("afterAll", vfunc 2 0 vundefined)])].map
              (contribKey "beforeAll")).flatten)),
         ("beforeEach", varr (([vobj [("beforeEach", vfunc 1 0 vundefined)],
            vfunc 6 5 (vobj [("afterAll", vfunc 2 0 vundefined)])].map
              (contribKey "beforeEach")).flatten)),
         ("afterAll", varr (([vobj [("beforeEach", vfunc 1 0 vundefined)],
            vfunc 6 5 (vobj [("afterAll", vfunc 2 0 vundefined)])].map
              (contribKey "afterAll")).flatten)),
         ("afterEach", varr (([vobj [("beforeEach", vfunc 1 0 vundefined)],
            vfunc 6 5 (vobj [("afterAll", vfunc 2 0 vundefined)])].map
              (contribKey "afterEach")).flatten))] ∧
    mochaHooksFinalize [vfunc 6 0 (vobj [])] =
      mochaHooksFinalize [vfunc 6 42 (vobj [])] :=
  ⟨claim1_rootHook_pipeline.1
      [vobj [("mochaHooks", vobj [("beforeEach", vfunc 1 0 vundefined)])]]
      (loaderWith [vobj [("beforeEach", vfunc 1 0 vundefined)]] [] []) rfl,
   claim1_rootHook_pipeline.2.1
      [vobj [("beforeEach", vfunc 1 0 vundefined)],
       vfunc 6 5 (vobj [("afterAll", vfunc 2 0 vundefined)])] (by decide),
   claim1_rootHook_pipeline.2.2 [vfunc 6 0 (vobj [])] [vfunc 6 42 (vobj [])]
      (List.Forall₂.cons (DelayEquiv.func 6 0 42 (vobj [])) List.Forall₂.nil)⟩

/-- C2 counterexample: in the pluginMap-based implementation, a kind with no
`finalize` aggregator is surfaced: after loading a module exporting
`mochaGlobalSetup`, `finalize` puts the raw accumulated array under
`globalSetup`, so the claim's "never surfaced in the output" fails on this
variant. -/
theorem claim2_counterexample :
    (mkPluginLoader2.load (vobj [("mochaGlobalSetup", vfunc 0 0 vundefined)])).1 =
        Except.ok true ∧
      (((mkPluginLoader2.load
          (vobj [("mochaGlobalSetup", vfunc 0 0 vundefined)])).2).finalizeResult).lookup
        "globalSetup" = some (varr [vfunc 0 0 vundefined]) :=
  ⟨rfl, rfl⟩

/-- C2 (amended): in the registry-based implementation, every key of the
`finalize` output originates from a registered kind that defines a
`finalize` aggregator; in particular, over the default registry the
aggregator-less `mochaGlobalSetup` and `mochaGlobalTeardown` kinds are
never surfaced, whatever their buckets hold. The pluginMap-based variant
instead surfaces their raw accumulated arrays. -/
theorem claim2_no_aggregator_never_surfaced :
    (∀ (L : PluginLoader) (k : String),
        k ∈ (L.finalizeResult).map Prod.fst →
        ∃ n p, L.registered.lookup n = some p ∧ p.finalize.isSome = true ∧
          k = strOr p.optionName n) ∧
    (∀ hs ss ts : List JSVal,
        ((loaderWith hs ss ts).finalizeResult).lookup "globalSetup" = none ∧
        ((loaderWith hs ss ts).finalizeResult).lookup "globalTeardown" = none) := by
  constructor
  · exact fun L k h => finalizeResult_key_origin L k h
  · intro hs ss ts
    constructor <;>
      · simp only [PluginLoader.finalizeResult, finalizeAux_loaderWith]
        cases hs <;> simp [List.lookup]

/-- Witness for C2 (amended): the `rootHooks` key of a finalized default
loader with one hook contribution traces back to the `mochaHooks` kind and
its aggregator. -/
theorem claim2_no_aggregator_never_surfaced_witness :
    ∃ n p,
      ((loaderWith [vobj []] [] []).registered).lookup n = some p ∧
        p.finalize.isSome = true ∧ "rootHooks" = strOr p.optionName n :=
  claim2_no_aggregator_never_surfaced.1 (loaderWith [vobj []] [] [])
    "rootHooks" (by decide)

/-- C3: a registered kind whose bucket is empty at `finalize` time neither
has its aggregator invoked nor its option-name key placed in the output, in
both implementations (for the pluginMap-based one, key absence for each of
the three shipped kinds). -/
theorem claim3_empty_bucket_skipped :
    ∀ hs ss ts : List JSVal,
      (hs = [] →
        ((loaderWith hs ss ts).finalizeResult).lookup "rootHooks" = none ∧
          "mochaHooks" ∉ (loaderWith hs ss ts).finalizeInvoked) ∧
      (ss = [] →
        ((loaderWith hs ss ts).finalizeResult).lookup "globalSetup" = none ∧
          "mochaGlobalSetup" ∉ (loaderWith hs ss ts).finalizeInvoked) ∧
      (ts = [] →
        ((loaderWith hs ss ts).finalizeResult).lookup "globalTeardown" = none ∧
          "mochaGlobalTeardown" ∉ (loaderWith hs ss ts).finalizeInvoked) ∧
      (hs = [] →
        ((loader2With hs ss ts).finalizeResult).lookup "rootHooks" = none) ∧
      (ss = [] →
        ((loader2With hs ss ts).finalizeResult).lookup "globalSetup" = none) ∧
      (ts = [] →
        ((loader2With hs ss ts).finalizeResult).lookup "globalTeardown" = none) := by
  intro hs ss ts
  refine ⟨?_, ?_, ?_, ?_, ?_, ?_⟩
  · intro h
    subst h
    constructor <;>
      simp [PluginLoader.finalizeResult, PluginLoader.finalizeInvoked,
        finalizeAux_loaderWith]
  · intro _
    constructor <;>
      · simp only [PluginLoader.finalizeResult, PluginLoader.finalizeInvoked,
          finalizeAux_loaderWith]
        cases hs <;> simp [List.lookup]
  · intro _
    constructor <;>
      · simp only [PluginLoader.finalizeResult, PluginLoader.finalizeInvoked,
          finalizeAux_loaderWith]
        cases hs <;> simp [List.lookup]
  · intro h
    subst h
    rw [finalizeResult_loader2With]
    cases ss <;> cases ts <;> simp [List.lookup]
  · intro h
    subst h
    rw [finalizeResult_loader2With]
    cases hs <;> cases ts <;> simp [List.lookup]
  · intro h
    subst h
    rw [finalizeResult_loader2With]
    cases hs <;> cases ss <;> simp [List.lookup]

/-- Witness for C3: a loader whose only non-empty bucket is
`mochaGlobalSetup`' s. -/
theorem claim3_empty_bucket_skipped_witness :
    (((loaderWith [] [vfunc 0 0 vundefined] []).finalizeResult).lookup
        "rootHooks" = none ∧
      "mochaHooks" ∉ (loaderWith [] [vfunc 0 0 vundefined] []).finalizeInvoked) ∧
    (((loaderWith [] [vfunc 0 0 vundefined] []).finalizeResult).lookup
        "globalTeardown" = none ∧
      "mochaGlobalTeardown" ∉
        (loaderWith [] [vfunc 0 0 vundefined] []).finalizeInvoked) ∧
    ((loader2With [] [vfunc 0 0 vundefined] []).finalizeResult).lookup
      "rootHooks" = none :=
  ⟨(claim3_empty_bucket_skipped [] [vfunc 0 0 vundefined] []).1 rfl,
   (claim3_empty_bucket_skipped [] [vfunc 0 0 vundefined] []).2.2.1 rfl,
   (claim3_empty_bucket_skipped [] [vfunc 0 0 vundefined] []).2.2.2.1 rfl⟩

/-- C4: given that `load` returns (rather than throws), it returns `true`
exactly when the module is a truthy `typeof`-object value carrying at least
one registered export name with a truthy value that its validator accepts;
in every `false` case the accumulation buckets are unchanged. -/
theorem claim4_load_return :
    ∀ (L : PluginLoader) (m : JSVal) (b : Bool) (L2 : PluginLoader),
      L.load m = (Except.ok b, L2) →
      (b = true ↔ nonNullObject m = true ∧
        ∃ name ∈ L.exportNames, (m.getProp name).truthy = true ∧
          passesValidation L.registered name (m.getProp name)) ∧
      (b = false → L2.loaded = L.loaded) :=
  fun L m b L2 h => load_ok_char L m b L2 h

/-- Witness for C4: loading the number `42` into the default loader returns
`false` and keeps the (empty) buckets. -/
theorem claim4_load_return_witness :
    (false = true ↔ nonNullObject (vnum 42) = true ∧
      ∃ name ∈ defaultLoader.exportNames,
        ((vnum 42).getProp name).truthy = true ∧
          passesValidation defaultLoader.registered name
            ((vnum 42).getProp name)) ∧
    (false = false → defaultLoader.loaded = defaultLoader.loaded) :=
  claim4_load_return defaultLoader (vnum 42) false defaultLoader rfl

/-- C10: with the built-in plugin definitions the two `PluginLoader`
implementations have extensionally equal `load` behavior — over any module
sequence and any common starting buckets they produce the same list of
outcomes (booleans and thrown validation errors) and end with equal bucket
contents — and on every non-empty contribution list the `mochaHooks` kind's
`finalize` equals the exported `aggregateRootHooks`. -/
theorem claim10_variants_equivalent :
    (∀ (ms : List JSVal) (pm : List (String × List JSVal)),
        (loadSeq ⟨defaultRegistered, pm⟩ ms).1 =
            (loadSeq2 ⟨PLUGIN_NAMES, pm, PluginValidators⟩ ms).1 ∧
          ((loadSeq ⟨defaultRegistered, pm⟩ ms).2).loaded =
            ((loadSeq2 ⟨PLUGIN_NAMES, pm, PluginValidators⟩ ms).2).pluginMap) ∧
    (∀ hooks : List JSVal, hooks.length ≠ 0 →
        mochaHooksFinalize hooks = aggregateRootHooks hooks) :=
  ⟨fun ms pm => loadSeq_eq_loadSeq2 ms pm,
   fun hooks h => mochaHooksFinalize_pos hooks h⟩

/-- Witness for C10: a concrete two-module sequence (one rejected number,
one hook module) over the fresh buckets, and a one-element hook list. -/
theorem claim10_variants_equivalent_witness :
    ((loadSeq ⟨defaultRegistered, defaultLoader.loaded⟩
          [vnum 3, vobj [("mochaHooks", vobj [])]]).1 =
        (loadSeq2 ⟨PLUGIN_NAMES, defaultLoader.loaded, PluginValidators⟩
          [vnum 3, vobj [("mochaHooks", vobj [])]]).1 ∧
      ((loadSeq ⟨defaultRegistered, defaultLoader.loaded⟩
          [vnum 3, vobj [("mochaHooks", vobj [])]]).2).loaded =
        ((loadSeq2 ⟨PLUGIN_NAMES, defaultLoader.loaded, PluginValidators⟩
          [vnum 3, vobj [("mochaHooks", vobj [])]]).2).pluginMap) ∧
    mochaHooksFinalize [vobj []] = aggregateRootHooks [vobj []] :=
  ⟨claim10_variants_equivalent.1 [vnum 3, vobj [("mochaHooks", vobj [])]]
      defaultLoader.loaded,
   claim10_variants_equivalent.2 [vobj []] (by decide)⟩

end Plugin
